import Mathlib

/-!
Verification of the distributed-sync-system repository's consensus cores
against its specification: the Raft engine (src/consensus/raft.py), the
PBFT engine (src/consensus/pbft.py), the lock-manager replicated state
machine (src/nodes/lock_manager.py) and the peer transport
(src/communication/message_passing.py), shallowly embedded as pure Lean
functions over explicit state records.  Python dictionaries become
functions out of the key type, Python lists become `List`, and the
asynchronous plumbing (timers, HTTP, broadcast fan-out) is outside the
embedded state: each handler is the state transformer the Python method
performs on the engine's own fields.
-/

namespace DistSync

/-- Pointwise update of a function standing for a Python dict:
`upd f k v` maps `k` to `v` and every other key as `f` does. -/
def upd {κ α : Type} [DecidableEq κ] (f : κ → α) (k : κ) (v : α) : κ → α :=
  fun x => if x = k then v else f x

@[simp] theorem upd_same {κ α : Type} [DecidableEq κ] (f : κ → α) (k : κ) (v : α) :
    upd f k v k = v := by
  simp [upd]

theorem upd_ne {κ α : Type} [DecidableEq κ] (f : κ → α) (k : κ) (v : α)
    {x : κ} (h : x ≠ k) : upd f k v x = f x := by
  simp [upd, h]

theorem upd_upd_same {κ α : Type} [DecidableEq κ] (f : κ → α) (k : κ) (v w : α) :
    upd (upd f k v) k w = upd f k w := by
  funext x
  by_cases h : x = k <;> simp [upd, h]

/-! ## Lock-manager state machine (src/nodes/lock_manager.py)

The replicated lock table maps a lock name to an entry
`{"type": str, "owners": list, "waiters": list}`; the leader-local
wait-for graph maps a node id to the list of node ids it waits behind.
The HTTP layer admits only the strings "shared" and "exclusive" for a
lock type, so the type is embedded as a two-constructor inductive. -/

inductive LockType where
  | shared
  | exclusive
deriving DecidableEq, Repr

structure LockEntry where
  type : LockType
  owners : List String
  waiters : List (String × LockType)
deriving DecidableEq, Repr

structure LMState where
  lock_table : String → Option LockEntry
  wait_for_graph : String → Option (List String)

inductive LockCommand where
  | acquire_lock (lock_name : String) (lock_type : LockType) (requester : String)
  | release_lock (lock_name : String) (requester : String)
deriving DecidableEq, Repr

/-- The lock's entry at the start of an acquire, created if absent
(lock_manager.py lines 37-38). -/
def entry_or_new (s : LMState) (lock_name : String) (l_type : LockType) : LockEntry :=
  match s.lock_table lock_name with
  | some e => e
  | none => { type := l_type, owners := [], waiters := [] }

/-- The lock's entry after the acquire's owner step (lock_manager.py
lines 41-43): append the requester to `owners` and set the entry's
type, unless the requester is already an owner. -/
def entry_after_acquire (s : LMState) (lock_name : String) (l_type : LockType)
    (requester : String) : LockEntry :=
  if requester ∈ (entry_or_new s lock_name l_type).owners then entry_or_new s lock_name l_type
  else { entry_or_new s lock_name l_type with
           owners := (entry_or_new s lock_name l_type).owners ++ [requester], type := l_type }

/-- The wait-for graph after an acquire (lock_manager.py lines 46-51):
purge the requester's outgoing edges that point at the lock's current
owners, deleting the requester's key when no edge remains. -/
def graph_after_acquire (s : LMState) (lock_name : String) (l_type : LockType)
    (requester : String) : String → Option (List String) :=
  match s.wait_for_graph requester with
  | none => s.wait_for_graph
  | some edges =>
    let remaining := edges.filter
      (fun n => decide (n ∉ (entry_after_acquire s lock_name l_type requester).owners))
    if remaining.isEmpty then upd s.wait_for_graph requester none
    else upd s.wait_for_graph requester (some remaining)

/-- The `acquire_lock` branch of `apply_lock_command` (lock_manager.py
lines 36-51). -/
def apply_acquire (s : LMState) (lock_name : String) (l_type : LockType)
    (requester : String) : LMState :=
  { lock_table := upd s.lock_table lock_name
      (some (entry_after_acquire s lock_name l_type requester)),
    wait_for_graph := graph_after_acquire s lock_name l_type requester }

/-- The `release_lock` branch of `apply_lock_command` (lock_manager.py
lines 53-68): remove the requester from `owners` when it is one; when
the owners become empty and waiters queue, pop the head waiter (FIFO)
and recursively apply an acquire for it. -/
def apply_release (s : LMState) (lock_name : String) (requester : String) : LMState :=
  match s.lock_table lock_name with
  | none => s
  | some e =>
    if requester ∈ e.owners then
      let owners1 := e.owners.erase requester
      if owners1.isEmpty then
        match e.waiters with
        | [] => { s with lock_table := upd s.lock_table lock_name (some { e with owners := owners1 }) }
        | (next_node, next_type) :: rest =>
          let e1 : LockEntry := { e with owners := owners1, waiters := rest }
          let s1 : LMState := { s with lock_table := upd s.lock_table lock_name (some e1) }
          apply_acquire s1 lock_name next_type next_node
      else { s with lock_table := upd s.lock_table lock_name (some { e with owners := owners1 }) }
    else s

/-- `apply_lock_command` (lock_manager.py lines 22-68), the Raft apply
callback, dispatching on the command's `type` field. -/
def apply_lock_command : LockCommand → LMState → LMState
  | LockCommand.acquire_lock L t r, s => apply_acquire s L t r
  | LockCommand.release_lock L r, s => apply_release s L r

/-- `can_grant_lock` (lock_manager.py lines 107-124): free or
unowned locks are granted, re-entrant requests are granted, and a
shared request on a shared-held lock is granted; everything else is
refused. -/
def can_grant_lock (s : LMState) (lock_name : String) (lock_type : LockType)
    (requester : String) : Bool :=
  match s.lock_table lock_name with
  | none => true
  | some current =>
    if current.owners.isEmpty then true
    else if requester ∈ current.owners then true
    else if lock_type = LockType.shared ∧ current.type = LockType.shared then true
    else false

/-- The initial state: empty lock table, empty wait-for graph. -/
def LMInit : LMState := { lock_table := fun _ => none, wait_for_graph := fun _ => none }

theorem entry_after_acquire_of_none {s : LMState} {L : String} (t : LockType) (r : String)
    (hsl : s.lock_table L = none) :
    entry_after_acquire s L t r = { type := t, owners := [r], waiters := [] } := by
  unfold entry_after_acquire entry_or_new
  rw [hsl]
  simp

theorem entry_after_acquire_of_some {s : LMState} {L : String} (t : LockType) (r : String)
    {e0 : LockEntry} (hsl : s.lock_table L = some e0) :
    entry_after_acquire s L t r =
      if r ∈ e0.owners then e0
      else { e0 with owners := e0.owners ++ [r], type := t } := by
  unfold entry_after_acquire entry_or_new
  rw [hsl]

/-! ### Mutual exclusion under the replicated apply (claim C5) -/

/-- Claim C5 fails on the code: admission (`can_grant_lock`) runs only
at the proposing leader against its local applied table
(lock_manager.py line 188), while `apply_lock_command` applies every
committed command with no compatibility check (lines 36-51).  Across a
leader change the admission state can be stale: leader n1 commits
acquire(L, exclusive, n1) and fails before the commit index spreads;
the next leader n2 carries the entry in its log but has applied
nothing, so its empty table admits n2's own exclusive acquire of L
(first conjunct), and the committed log
[acquire(L, exclusive, n1), acquire(L, exclusive, n2)] is then applied
on every node.  Replaying that log from the empty table (second
conjunct) leaves lock L with type exclusive and owners [n1, n2] — an
exclusive lock with a second owner, which the claim forbids in every
reachable state. -/
theorem lock_mutual_exclusion_violation :
    can_grant_lock LMInit "L" LockType.exclusive "n2" = true ∧
    ((apply_lock_command (LockCommand.acquire_lock "L" LockType.exclusive "n2")
        (apply_lock_command (LockCommand.acquire_lock "L" LockType.exclusive "n1")
          LMInit)).lock_table "L").map (fun e => (e.type, e.owners)) =
      some (LockType.exclusive, ["n1", "n2"]) := by
  decide

/-! ### Acquire idempotence (claim C6) and release semantics (claim C7) -/

theorem apply_acquire_lock_table (s : LMState) (L : String) (t : LockType) (r : String) :
    (apply_acquire s L t r).lock_table =
      upd s.lock_table L (some (entry_after_acquire s L t r)) := rfl

theorem mem_owners_entry_after_acquire (s : LMState) (L : String) (t : LockType)
    (A : String) : A ∈ (entry_after_acquire s L t A).owners := by
  unfold entry_after_acquire
  by_cases hmem : A ∈ (entry_or_new s L t).owners
  · rw [if_pos hmem]
    exact hmem
  · rw [if_neg hmem]
    simp

theorem apply_acquire_table_twice (s : LMState) (L : String) (t : LockType) (A : String) :
    (apply_acquire (apply_acquire s L t A) L t A).lock_table =
      (apply_acquire s L t A).lock_table := by
  have h1 : (apply_acquire s L t A).lock_table L = some (entry_after_acquire s L t A) := by
    rw [apply_acquire_lock_table, upd_same]
  have h2 : entry_after_acquire (apply_acquire s L t A) L t A = entry_after_acquire s L t A := by
    rw [entry_after_acquire_of_some t A h1]
    rw [if_pos (mem_owners_entry_after_acquire s L t A)]
  rw [apply_acquire_lock_table, apply_acquire_lock_table, h2, upd_upd_same]

/-- Claim C6: applying the same acquire command twice yields the same
lock table as applying it once, and from a table where the lock is
absent the owners after the duplicate acquire are exactly `[A]`. -/
theorem acquire_lock_idempotent (s : LMState) (L : String) (t : LockType) (A : String) :
    (apply_lock_command (LockCommand.acquire_lock L t A)
        (apply_lock_command (LockCommand.acquire_lock L t A) s)).lock_table =
      (apply_lock_command (LockCommand.acquire_lock L t A) s).lock_table ∧
    (s.lock_table L = none →
      ((apply_lock_command (LockCommand.acquire_lock L t A)
          (apply_lock_command (LockCommand.acquire_lock L t A) s)).lock_table L).map
        LockEntry.owners = some [A]) := by
  constructor
  · exact apply_acquire_table_twice s L t A
  · intro hnone
    show ((apply_acquire (apply_acquire s L t A) L t A).lock_table L).map
      LockEntry.owners = some [A]
    rw [apply_acquire_table_twice s L t A, apply_acquire_lock_table, upd_same,
      entry_after_acquire_of_none t A hnone]
    rfl

/-- Witness for C6 from the empty table. -/
theorem acquire_lock_idempotent_witness :
    (apply_lock_command (LockCommand.acquire_lock "L" LockType.exclusive "A")
        (apply_lock_command (LockCommand.acquire_lock "L" LockType.exclusive "A") LMInit)).lock_table =
      (apply_lock_command (LockCommand.acquire_lock "L" LockType.exclusive "A") LMInit).lock_table ∧
    ((apply_lock_command (LockCommand.acquire_lock "L" LockType.exclusive "A")
        (apply_lock_command (LockCommand.acquire_lock "L" LockType.exclusive "A") LMInit)).lock_table "L").map
      LockEntry.owners = some ["A"] := by
  refine ⟨(acquire_lock_idempotent LMInit "L" LockType.exclusive "A").1, ?_⟩
  exact (acquire_lock_idempotent LMInit "L" LockType.exclusive "A").2 rfl

/-- Claim C7: releasing lock `L` as `R` removes `R` from the owners
when it is an owner and changes nothing when it is not; when the
removal empties the owners while waiters remain, the head waiter is
dequeued FIFO and granted the lock by a recursive acquire, leaving it
the sole owner. -/
theorem release_lock_semantics (s : LMState) (L R : String) (e : LockEntry)
    (he : s.lock_table L = some e) :
    (R ∉ e.owners → apply_lock_command (LockCommand.release_lock L R) s = s) ∧
    (R ∈ e.owners → ¬ ((e.owners.erase R).isEmpty = true ∧ e.waiters ≠ []) →
      (apply_lock_command (LockCommand.release_lock L R) s).lock_table L =
        some { e with owners := e.owners.erase R }) ∧
    (∀ h t rest, R ∈ e.owners → (e.owners.erase R).isEmpty = true →
      e.waiters = (h, t) :: rest →
      (apply_lock_command (LockCommand.release_lock L R) s).lock_table L =
        some (LockEntry.mk t [h] rest)) := by
  refine ⟨?_, ?_, ?_⟩
  · intro hmem
    show apply_release s L R = s
    unfold apply_release
    rw [he]
    dsimp only
    rw [if_neg hmem]
  · intro hmem hnot
    show (apply_release s L R).lock_table L = _
    unfold apply_release
    rw [he]
    dsimp only
    rw [if_pos hmem]
    by_cases hemp : (e.owners.erase R).isEmpty = true
    · have hw : e.waiters = [] := by
        by_contra hne
        exact hnot ⟨hemp, hne⟩
      rw [if_pos hemp, hw]
      dsimp only
      rw [upd_same]
    · rw [if_neg hemp]
      dsimp only
      rw [upd_same]
  · intro h t rest hmem hemp hw
    show (apply_release s L R).lock_table L = _
    unfold apply_release
    rw [he]
    dsimp only
    rw [if_pos hmem, if_pos hemp, hw]
    dsimp only
    have herase : e.owners.erase R = [] := List.isEmpty_iff.mp hemp
    have he1 : (LMState.mk (upd s.lock_table L
        (some { e with owners := e.owners.erase R, waiters := rest }))
        s.wait_for_graph).lock_table L =
        some { e with owners := e.owners.erase R, waiters := rest } := by
      dsimp only
      rw [upd_same]
    rw [apply_acquire_lock_table, upd_same, entry_after_acquire_of_some t h he1]
    rw [herase]
    dsimp only
    rw [if_neg (by simp)]
    rfl

/-- Witness for C7: releasing the exclusive lock "L" held by "R1" with
"W1" queued promotes "W1" to sole shared owner. -/
theorem release_lock_semantics_witness :
    (apply_lock_command (LockCommand.release_lock "L" "R1")
        (LMState.mk
          (upd (fun _ => none) "L"
            (some (LockEntry.mk LockType.exclusive ["R1"] [("W1", LockType.shared)])))
          (fun _ => none))).lock_table "L" =
      some (LockEntry.mk LockType.shared ["W1"] []) :=
  (release_lock_semantics
      (LMState.mk
        (upd (fun _ => none) "L"
          (some (LockEntry.mk LockType.exclusive ["R1"] [("W1", LockType.shared)])))
        (fun _ => none))
      "L" "R1" (LockEntry.mk LockType.exclusive ["R1"] [("W1", LockType.shared)])
      (by decide)).2.2 "W1" LockType.shared [] (by decide) (by decide) (by decide)

/-! ## Raft engine (src/consensus/raft.py)

The engine's mutable fields become a state record; the election timer,
heartbeat task and commit monitor are scheduler tasks whose effects on
these fields are the explicit transitions below.  Commands carried by
log entries are opaque to the engine and embedded as strings. -/

inductive RaftRole where
  | follower
  | candidate
  | leader
deriving DecidableEq, Repr

structure LogEntry where
  term : Nat
  command : String
deriving DecidableEq, Repr

structure RaftState where
  state : RaftRole
  current_term : Nat
  voted_for : Option String
  log : List LogEntry
  commit_index : Nat
  last_applied : Nat
  leader_id : Option String
deriving DecidableEq, Repr

structure VoteReply where
  term : Nat
  vote_granted : Bool
deriving DecidableEq, Repr

structure AppendReply where
  term : Nat
  success : Bool
deriving DecidableEq, Repr

def get_last_log_index (s : RaftState) : Nat := s.log.length

/-- Python `self.log[-1]["term"] if self.log else 0`. -/
def get_last_log_term (s : RaftState) : Nat :=
  match s.log.getLast? with
  | some e => e.term
  | none => 0

/-- `_transition_to_follower` (raft.py lines 227-233); the timer reset
and heartbeat-task cancellation touch no embedded field. -/
def transition_to_follower (s : RaftState) (term : Nat) : RaftState :=
  { s with state := RaftRole.follower, current_term := term, voted_for := none }

/-- `handle_request_vote` (raft.py lines 116-133), returning the
post-call state beside the reply dict. -/
def handle_request_vote (s : RaftState) (term : Nat) (candidate_id : String)
    (last_log_index last_log_term : Nat) : RaftState × VoteReply :=
  if term < s.current_term then (s, { term := s.current_term, vote_granted := false })
  else
    let s1 := if s.current_term < term then transition_to_follower s term else s
    if (s1.voted_for = none ∨ s1.voted_for = some candidate_id) ∧
        (get_last_log_term s1 < last_log_term ∨
          (last_log_term = get_last_log_term s1 ∧ get_last_log_index s1 ≤ last_log_index)) then
      ({ s1 with voted_for := some candidate_id },
        { term := s1.current_term, vote_granted := true })
    else (s1, { term := s1.current_term, vote_granted := false })

/-- `handle_append_entries` (raft.py lines 199-219), returning the
post-call state beside the reply dict. -/
def handle_append_entries (s : RaftState) (term : Nat) (leader_id : String)
    (entries : List LogEntry) (prev_log_index prev_log_term leader_commit : Nat) :
    RaftState × AppendReply :=
  if term < s.current_term then (s, { term := s.current_term, success := false })
  else
    let s1 := { s with leader_id := some leader_id }
    let s2 := if s1.current_term < term then transition_to_follower s1 term else s1
    if 0 < prev_log_index ∧
        (s2.log.length < prev_log_index ∨
          (prev_log_index ≤ s2.log.length ∧
            (s2.log.get? (prev_log_index - 1)).map LogEntry.term ≠ some prev_log_term)) then
      (s2, { term := s2.current_term, success := false })
    else
      let s3 := if entries ≠ [] then { s2 with log := s2.log.take prev_log_index ++ entries }
                else s2
      let s4 := if s3.commit_index < leader_commit
                then { s3 with commit_index := min leader_commit s3.log.length }
                else s3
      (s4, { term := s4.current_term, success := true })

/-- The characters after the first `//` (none when no `//` occurs). -/
def after_scheme : List Char → List Char
  | [] => []
  | '/' :: '/' :: rest => rest
  | _ :: rest => after_scheme rest

/-- The characters before the first `:`. -/
def up_to_colon : List Char → List Char
  | [] => []
  | ':' :: _ => []
  | c :: rest => c :: up_to_colon rest

/-- Host part of a peer URL: Python `url.split('//')[1].split(':')[0]`,
the text between the scheme separator and the next colon (the
configuration's URLs contain a single `//`). -/
def extract_host (url : String) : String :=
  String.mk (up_to_colon (after_scheme url.data))

/-- The term of the 1-indexed log position `n`: Python
`self.log[n-1]["term"]` (0 when out of range, unreachable inside the
loop's bounds). -/
def entry_term (log : List LogEntry) (n : Nat) : Nat :=
  match log.get? (n - 1) with
  | some e => e.term
  | none => 0

/-- The vote count of raft.py lines 190-194: the leader itself plus
every peer whose recorded match_index is at least `n`
(`self.match_index.get(p_id, 0) >= n`). -/
def match_count (match_index : String → Nat) (peers : List String) (n : Nat) : Nat :=
  1 + (peers.filter (fun p_url => n ≤ match_index (extract_host p_url))).length

/-- The candidate indexes of `range(len(self.log), self.commit_index, -1)`:
`[len, len-1, ..., commit_index+1]`. -/
def desc_range (commit_index len : Nat) : List Nat :=
  if h : commit_index < len then len :: desc_range commit_index (len - 1) else []
termination_by len
decreasing_by omega

/-- The body of the commit-advancement loop (raft.py lines 188-197):
walk the descending candidates and return the first index whose entry
is of the current term and is covered by a strict majority; the loop
breaks there, or falls through leaving commit_index unchanged. -/
def commit_scan (log : List LogEntry) (current_term : Nat) (match_index : String → Nat)
    (peers : List String) (total_nodes : Nat) : List Nat → Option Nat
  | [] => none
  | n :: rest =>
    if entry_term log n = current_term ∧ total_nodes / 2 < match_count match_index peers n
    then some n
    else commit_scan log current_term match_index peers total_nodes rest

/-- The new commit_index after one heartbeat round's advancement check. -/
def advance_commit_index (log : List LogEntry) (current_term commit_index : Nat)
    (match_index : String → Nat) (peers : List String) (total_nodes : Nat) : Nat :=
  match commit_scan log current_term match_index peers total_nodes
      (desc_range commit_index log.length) with
  | some n => n
  | none => commit_index

/-- Index `n` is committable this round: its entry carries the current
term and the leader plus the matching peers form a strict majority. -/
def GoodCommit (log : List LogEntry) (current_term : Nat) (match_index : String → Nat)
    (peers : List String) (total_nodes : Nat) (n : Nat) : Prop :=
  entry_term log n = current_term ∧ total_nodes / 2 < match_count match_index peers n

theorem desc_range_zero (ci : Nat) : desc_range ci 0 = [] := by
  rw [desc_range]
  simp

theorem desc_range_succ (ci k : Nat) :
    desc_range ci (k + 1) = if ci < k + 1 then (k + 1) :: desc_range ci k else [] := by
  rw [desc_range]
  split
  · simp_all
  · simp_all

theorem commit_scan_none (log : List LogEntry) (ct : Nat) (mi : String → Nat)
    (peers : List String) (total ci : Nat) :
    ∀ len, commit_scan log ct mi peers total (desc_range ci len) = none →
      ∀ m, ci < m → m ≤ len → ¬ GoodCommit log ct mi peers total m := by
  intro len
  induction len with
  | zero => intro _ m h1 h2 _; omega
  | succ k ih =>
    intro hscan m h1 h2 hgood
    rw [desc_range_succ] at hscan
    by_cases hci : ci < k + 1
    · rw [if_pos hci] at hscan
      unfold commit_scan at hscan
      by_cases hg : entry_term log (k + 1) = ct ∧ total / 2 < match_count mi peers (k + 1)
      · rw [if_pos hg] at hscan
        cases hscan
      · rw [if_neg hg] at hscan
        by_cases hm : m = k + 1
        · exact hg (hm ▸ hgood)
        · exact ih hscan m h1 (by omega) hgood
    · rw [if_neg hci] at hscan
      omega

theorem commit_scan_some (log : List LogEntry) (ct : Nat) (mi : String → Nat)
    (peers : List String) (total ci : Nat) :
    ∀ len n, commit_scan log ct mi peers total (desc_range ci len) = some n →
      ci < n ∧ n ≤ len ∧ GoodCommit log ct mi peers total n ∧
      ∀ m, n < m → m ≤ len → ¬ GoodCommit log ct mi peers total m := by
  intro len
  induction len with
  | zero =>
    intro n h
    rw [desc_range_zero] at h
    cases h
  | succ k ih =>
    intro n hscan
    rw [desc_range_succ] at hscan
    by_cases hci : ci < k + 1
    · rw [if_pos hci] at hscan
      unfold commit_scan at hscan
      by_cases hg : entry_term log (k + 1) = ct ∧ total / 2 < match_count mi peers (k + 1)
      · rw [if_pos hg] at hscan
        cases hscan
        exact ⟨hci, Nat.le_refl _, hg, fun m hm1 hm2 _ => by omega⟩
      · rw [if_neg hg] at hscan
        obtain ⟨h1, h2, h3, h4⟩ := ih n hscan
        refine ⟨h1, by omega, h3, ?_⟩
        intro m hm1 hm2 hgood
        by_cases hm : m = k + 1
        · exact hg (hm ▸ hgood)
        · exact h4 m hm1 (by omega) hgood
    · rw [if_neg hci] at hscan
      cases hscan

/-- Claim C3: a heartbeat round either leaves commit_index unchanged
(when no committable index exists above it) or sets it to the highest
index `N > commit_index` whose entry has the current term and is
covered by a strict majority; it is never advanced to an index whose
entry's term differs from the current term. -/
theorem leader_commit_advancement (log : List LogEntry) (current_term commit_index : Nat)
    (match_index : String → Nat) (peers : List String) (total_nodes : Nat) :
    (advance_commit_index log current_term commit_index match_index peers total_nodes
        = commit_index ∧
      ∀ m, commit_index < m → m ≤ log.length →
        ¬ GoodCommit log current_term match_index peers total_nodes m) ∨
    (commit_index <
        advance_commit_index log current_term commit_index match_index peers total_nodes ∧
      advance_commit_index log current_term commit_index match_index peers total_nodes
        ≤ log.length ∧
      GoodCommit log current_term match_index peers total_nodes
        (advance_commit_index log current_term commit_index match_index peers total_nodes) ∧
      ∀ m, advance_commit_index log current_term commit_index match_index peers total_nodes
          < m → m ≤ log.length →
        ¬ GoodCommit log current_term match_index peers total_nodes m) := by
  rcases hscan : commit_scan log current_term match_index peers total_nodes
      (desc_range commit_index log.length) with _ | n
  · left
    have hnone := commit_scan_none log current_term match_index peers total_nodes
      commit_index log.length hscan
    unfold advance_commit_index
    rw [hscan]
    exact ⟨rfl, hnone⟩
  · right
    obtain ⟨h1, h2, h3, h4⟩ := commit_scan_some log current_term match_index peers total_nodes
      commit_index log.length n hscan
    unfold advance_commit_index
    rw [hscan]
    exact ⟨h1, h2, h3, h4⟩

/-- Claim C4: a RequestVote is granted iff the call's term is at least
the local current_term, voted_for — after the step-down a strictly
higher term forces, which clears it — is unset or the candidate, and
the candidate's log is at least as up-to-date as the local log; a grant
records the candidate in voted_for, and the reply always carries the
node's (post-call) current_term. -/
theorem request_vote_spec (s : RaftState) (term : Nat) (candidate_id : String)
    (lli llt : Nat) :
    ((handle_request_vote s term candidate_id lli llt).2.vote_granted = true ↔
      (s.current_term ≤ term ∧
        ((if s.current_term < term then transition_to_follower s term else s).voted_for = none ∨
         (if s.current_term < term then transition_to_follower s term else s).voted_for =
           some candidate_id) ∧
        (get_last_log_term s < llt ∨
          (llt = get_last_log_term s ∧ get_last_log_index s ≤ lli)))) ∧
    ((handle_request_vote s term candidate_id lli llt).2.vote_granted = true →
      (handle_request_vote s term candidate_id lli llt).1.voted_for = some candidate_id) ∧
    (handle_request_vote s term candidate_id lli llt).2.term =
      (handle_request_vote s term candidate_id lli llt).1.current_term := by
  unfold handle_request_vote
  by_cases h1 : term < s.current_term
  · rw [if_pos h1]
    refine ⟨⟨fun hg => absurd hg (by simp), fun hr => absurd hr.1 (by omega)⟩,
      fun hg => absurd hg (by simp), rfl⟩
  · rw [if_neg h1]
    dsimp only
    have hle : s.current_term ≤ term := by omega
    have hlog : (if s.current_term < term then transition_to_follower s term else s).log
        = s.log := by
      by_cases h2 : s.current_term < term <;>
        simp [h2, transition_to_follower]
    have hglt : get_last_log_term
        (if s.current_term < term then transition_to_follower s term else s)
        = get_last_log_term s := by
      unfold get_last_log_term
      rw [hlog]
    have hgli : get_last_log_index
        (if s.current_term < term then transition_to_follower s term else s)
        = get_last_log_index s := by
      unfold get_last_log_index
      rw [hlog]
    by_cases hcond :
        ((if s.current_term < term then transition_to_follower s term else s).voted_for = none ∨
         (if s.current_term < term then transition_to_follower s term else s).voted_for =
           some candidate_id) ∧
        (get_last_log_term (if s.current_term < term then transition_to_follower s term else s)
            < llt ∨
          (llt = get_last_log_term
              (if s.current_term < term then transition_to_follower s term else s) ∧
           get_last_log_index
              (if s.current_term < term then transition_to_follower s term else s) ≤ lli))
    · rw [if_pos hcond]
      refine ⟨⟨fun _ => ⟨hle, hcond.1, by rw [← hglt, ← hgli]; exact hcond.2⟩, fun _ => rfl⟩,
        fun _ => rfl, rfl⟩
    · rw [if_neg hcond]
      refine ⟨⟨fun hg => absurd hg (by simp), ?_⟩, fun hg => absurd hg (by simp), rfl⟩
      rintro ⟨_, hv, hlok⟩
      exact absurd ⟨hv, by rw [hglt, hgli]; exact hlok⟩ hcond

/-- Claim C2 as frozen fails on the code: with a success reply, empty
`entries` leave the log untruncated and a `leader_commit` at or below
commit_index leaves commit_index unchanged.  Concretely, a follower at
term 1 with log `[⟨1,c1⟩, ⟨1,c2⟩]` and commit_index 2 answering
AppendEntries(term 1, entries [], prev_log_index 1, prev_log_term 1,
leader_commit 0) replies success yet keeps both log entries and
commit_index 2, where the claim demands log `[⟨1,c1⟩]` and
commit_index `min 0 |log|`. -/
theorem append_entries_claim_counterexample :
    ((handle_append_entries
        (RaftState.mk RaftRole.follower 1 none
          [LogEntry.mk 1 "c1", LogEntry.mk 1 "c2"] 2 0 none)
        1 "n2" [] 1 1 0).2.success = true) ∧
    ((handle_append_entries
        (RaftState.mk RaftRole.follower 1 none
          [LogEntry.mk 1 "c1", LogEntry.mk 1 "c2"] 2 0 none)
        1 "n2" [] 1 1 0).1.log ≠
      ([LogEntry.mk 1 "c1", LogEntry.mk 1 "c2"].take 1 ++ [])) ∧
    ((handle_append_entries
        (RaftState.mk RaftRole.follower 1 none
          [LogEntry.mk 1 "c1", LogEntry.mk 1 "c2"] 2 0 none)
        1 "n2" [] 1 1 0).1.commit_index ≠
      min 0 ((handle_append_entries
        (RaftState.mk RaftRole.follower 1 none
          [LogEntry.mk 1 "c1", LogEntry.mk 1 "c2"] 2 0 none)
        1 "n2" [] 1 1 0).1.log.length)) := by
  decide

/-- Claim C2, amended to what raft.py lines 199-219 do: an
AppendEntries with term at least current_term that passes the
consistency check replies success; the log becomes
`log[:prev_log_index] ++ entries` when `entries` is non-empty and is
left unchanged when it is empty; commit_index becomes
`min(leader_commit, |log'|)` when `leader_commit > commit_index` and is
left unchanged otherwise. -/
theorem append_entries_success (s : RaftState) (term : Nat) (leader_id : String)
    (entries : List LogEntry) (prev_log_index prev_log_term leader_commit : Nat)
    (hterm : s.current_term ≤ term)
    (hcons : prev_log_index = 0 ∨
      (prev_log_index ≤ s.log.length ∧
        (s.log.get? (prev_log_index - 1)).map LogEntry.term = some prev_log_term)) :
    ((handle_append_entries s term leader_id entries prev_log_index prev_log_term
        leader_commit).2.success = true) ∧
    ((handle_append_entries s term leader_id entries prev_log_index prev_log_term
        leader_commit).1.log =
      if entries ≠ [] then s.log.take prev_log_index ++ entries else s.log) ∧
    ((handle_append_entries s term leader_id entries prev_log_index prev_log_term
        leader_commit).1.commit_index =
      if s.commit_index < leader_commit
      then min leader_commit
        (if entries ≠ [] then s.log.take prev_log_index ++ entries else s.log).length
      else s.commit_index) := by
  unfold handle_append_entries
  rw [if_neg (by omega : ¬ term < s.current_term)]
  dsimp only
  have hfail : ¬ (0 < prev_log_index ∧
      (s.log.length < prev_log_index ∨
        (prev_log_index ≤ s.log.length ∧
          (s.log.get? (prev_log_index - 1)).map LogEntry.term ≠ some prev_log_term))) := by
    rcases hcons with h | ⟨hle, heq⟩
    · simp [h]
    · rintro ⟨_, hbad⟩
      rcases hbad with hlt | ⟨_, hne⟩
      · omega
      · exact hne heq
  by_cases h2 : s.current_term < term
  · rw [if_pos h2]
    unfold transition_to_follower
    dsimp only
    rw [if_neg hfail]
    by_cases hent : entries ≠ []
    · rw [if_pos hent, if_pos hent]
      dsimp only
      by_cases hcm : s.commit_index < leader_commit
      · rw [if_pos hcm, if_pos hcm]
        exact ⟨rfl, rfl, rfl⟩
      · rw [if_neg hcm, if_neg hcm]
        exact ⟨rfl, rfl, rfl⟩
    · rw [if_neg hent, if_neg hent]
      dsimp only
      by_cases hcm : s.commit_index < leader_commit
      · rw [if_pos hcm, if_pos hcm]
        exact ⟨rfl, rfl, rfl⟩
      · rw [if_neg hcm, if_neg hcm]
        exact ⟨rfl, rfl, rfl⟩
  · rw [if_neg h2]
    dsimp only
    rw [if_neg hfail]
    by_cases hent : entries ≠ []
    · rw [if_pos hent, if_pos hent]
      dsimp only
      by_cases hcm : s.commit_index < leader_commit
      · rw [if_pos hcm, if_pos hcm]
        exact ⟨rfl, rfl, rfl⟩
      · rw [if_neg hcm, if_neg hcm]
        exact ⟨rfl, rfl, rfl⟩
    · rw [if_neg hent, if_neg hent]
      dsimp only
      by_cases hcm : s.commit_index < leader_commit
      · rw [if_pos hcm, if_pos hcm]
        exact ⟨rfl, rfl, rfl⟩
      · rw [if_neg hcm, if_neg hcm]
        exact ⟨rfl, rfl, rfl⟩

/-- Witness for the amended C2: an empty follower accepting one entry. -/
theorem append_entries_success_witness :
    ((handle_append_entries (RaftState.mk RaftRole.follower 0 none [] 0 0 none)
        1 "n1" [LogEntry.mk 1 "cmd"] 0 0 1).2.success = true) ∧
    ((handle_append_entries (RaftState.mk RaftRole.follower 0 none [] 0 0 none)
        1 "n1" [LogEntry.mk 1 "cmd"] 0 0 1).1.log =
      if ([LogEntry.mk 1 "cmd"] : List LogEntry) ≠ []
      then ([] : List LogEntry).take 0 ++ [LogEntry.mk 1 "cmd"] else []) ∧
    ((handle_append_entries (RaftState.mk RaftRole.follower 0 none [] 0 0 none)
        1 "n1" [LogEntry.mk 1 "cmd"] 0 0 1).1.commit_index =
      if 0 < 1
      then min 1 (if ([LogEntry.mk 1 "cmd"] : List LogEntry) ≠ []
        then ([] : List LogEntry).take 0 ++ [LogEntry.mk 1 "cmd"] else []).length
      else 0) :=
  append_entries_success (RaftState.mk RaftRole.follower 0 none [] 0 0 none)
    1 "n1" [LogEntry.mk 1 "cmd"] 0 0 1 (by decide) (Or.inl rfl)

/-! ## Peer transport (src/communication/message_passing.py)

`send_rpc_to_peer` POSTs JSON and catches every failure class.  The
network's verdict enters the embedding as an explicit outcome value:
the terminal response (status and JSON body) or the exception class the
except-clauses catch.  JSON dictionaries are association lists. -/

inductive JsonVal where
  | str (s : String)
  | bool (b : Bool)
  | num (n : Nat)
deriving DecidableEq, Repr

abbrev JsonObj := List (String × JsonVal)

/-- The terminal outcome of the POST inside `send_rpc_to_peer`. -/
inductive HttpOutcome where
  | response (status : Nat) (body : JsonObj)
  | timeout
  | connection_error (msg : String)
  | other_error (msg : String)
deriving DecidableEq, Repr

/-- `send_rpc_to_peer` (message_passing.py lines 22-42) as a function of
the network outcome.  aiohttp's `raise_for_status` raises
`ClientResponseError` exactly for statuses 400 and above; that
exception is caught by the generic `except Exception` handler, which
renders it into the error field. -/
def send_rpc_to_peer (peer_url endpoint : String) (payload : JsonObj)
    (outcome : HttpOutcome) : JsonObj :=
  match outcome with
  | HttpOutcome.response status body =>
    if 400 ≤ status then
      [("error", JsonVal.str ("ClientResponseError " ++ toString status)),
       ("vote_granted", JsonVal.bool false), ("success", JsonVal.bool false)]
    else body
  | HttpOutcome.timeout =>
    [("error", JsonVal.str "timeout"),
     ("vote_granted", JsonVal.bool false), ("success", JsonVal.bool false)]
  | HttpOutcome.connection_error _ =>
    [("error", JsonVal.str "connection_error"),
     ("vote_granted", JsonVal.bool false), ("success", JsonVal.bool false)]
  | HttpOutcome.other_error msg =>
    [("error", JsonVal.str msg),
     ("vote_granted", JsonVal.bool false), ("success", JsonVal.bool false)]

/-- The outcomes on which the Python function takes an except branch. -/
def RpcFailure : HttpOutcome → Prop
  | HttpOutcome.response status _ => 400 ≤ status
  | _ => True

/-- Claim C8 as frozen fails on the code: a non-2xx response with a
status below 400 (here 304) does not raise in `raise_for_status`, so
its JSON body is returned as-is, with no error marker and no false
`vote_granted`. -/
theorem send_rpc_claim_counterexample :
    (304 < 200 ∨ 300 ≤ 304) ∧
    (send_rpc_to_peer "http://peer" "/raft/request-vote" []
        (HttpOutcome.response 304 [("foo", JsonVal.str "bar")])).lookup "error" = none ∧
    (send_rpc_to_peer "http://peer" "/raft/request-vote" []
        (HttpOutcome.response 304 [("foo", JsonVal.str "bar")])).lookup "vote_granted" ≠
      some (JsonVal.bool false) := by
  decide

/-- Claim C8 amended: `send_rpc_to_peer` never propagates an exception
(it is a total function of the outcome); on timeout, connection error,
a response whose status is 400 or above, or any other failure it
returns a structured dictionary carrying an error marker,
`vote_granted = false` and `success = false`.  A response with a
sub-400 status is returned as its parsed JSON body. -/
theorem send_rpc_error_shape (peer_url endpoint : String) (payload : JsonObj)
    (outcome : HttpOutcome) (h : RpcFailure outcome) :
    (∃ e, (send_rpc_to_peer peer_url endpoint payload outcome).lookup "error"
        = some (JsonVal.str e)) ∧
    (send_rpc_to_peer peer_url endpoint payload outcome).lookup "vote_granted"
      = some (JsonVal.bool false) ∧
    (send_rpc_to_peer peer_url endpoint payload outcome).lookup "success"
      = some (JsonVal.bool false) := by
  cases outcome with
  | response status body =>
    have h400 : 400 ≤ status := h
    unfold send_rpc_to_peer
    dsimp only
    rw [if_pos h400]
    exact ⟨⟨"ClientResponseError " ++ toString status, rfl⟩, rfl, rfl⟩
  | timeout => exact ⟨⟨"timeout", rfl⟩, rfl, rfl⟩
  | connection_error msg => exact ⟨⟨"connection_error", rfl⟩, rfl, rfl⟩
  | other_error msg => exact ⟨⟨msg, rfl⟩, rfl, rfl⟩

/-- Witness for the amended C8 at a concrete timeout. -/
theorem send_rpc_error_shape_witness :
    (∃ e, (send_rpc_to_peer "http://peer" "/raft/append-entries" []
        HttpOutcome.timeout).lookup "error" = some (JsonVal.str e)) ∧
    (send_rpc_to_peer "http://peer" "/raft/append-entries" []
        HttpOutcome.timeout).lookup "vote_granted" = some (JsonVal.bool false) ∧
    (send_rpc_to_peer "http://peer" "/raft/append-entries" []
        HttpOutcome.timeout).lookup "success" = some (JsonVal.bool false) :=
  send_rpc_error_shape "http://peer" "/raft/append-entries" [] HttpOutcome.timeout trivial

/-! ## PBFT engine (src/consensus/pbft.py)

One node's engine state; incoming protocol messages (from peers or an
adversarial network) drive the handlers.  Requests are embedded as
their canonical-JSON serialization (`json.dumps(request,
sort_keys=True)`), so the digest hashes that string directly.
Broadcast is fire-and-forget and touches no engine field. -/

/-- Modelled from the spec: the SHA-256 hex digest (`H` in the spec) of
hashlib is not part of the repository; the engine only ever compares
digests and signatures for equality, so the hash is embedded as an
injective string tag. -/
def sha256_model (s : String) : String := "sha256." ++ s

structure PBFTMessage where
  msg_type : String
  view : Nat
  sequence : Nat
  digest : String
  node_id : String
  timestamp : Nat := 0
  request : Option String := none
  signature : Option String := none
deriving DecidableEq, Repr

/-- `compute_digest` (pbft.py lines 120-123) over a request's
canonical-JSON serialization. -/
def compute_digest (request : String) : String := sha256_model request

/-- `sign_message` (pbft.py lines 125-130): the placeholder HMAC over
msg_type, view, sequence, digest and node_id. -/
def sign_message (m : PBFTMessage) : String :=
  sha256_model (m.msg_type ++ ":" ++ toString m.view ++ ":" ++ toString m.sequence
    ++ ":" ++ m.digest ++ ":" ++ m.node_id)

/-- `verify_signature` (pbft.py lines 132-137). -/
def verify_signature (m : PBFTMessage) : Bool :=
  m.signature == some (sign_message m)

structure PBFTState where
  node_id : String
  all_nodes : List String
  view : Nat
  sequence : Nat
  primary_id : String
  pre_prepare_log : Nat → Option PBFTMessage
  prepare_log : Nat → List PBFTMessage
  commit_log : Nat → List PBFTMessage
  executed : List Nat
  last_executed : Nat
  suspicious_nodes : String → Nat
  byzantine_threshold : Nat
  f : Nat
  quorum_size : Nat

/-- Lexicographic code-point comparison, Python's `<` on strings. -/
def chars_lt : List Char → List Char → Bool
  | [], [] => false
  | [], _ :: _ => true
  | _ :: _, [] => false
  | a :: as, b :: bs =>
    if a.toNat < b.toNat then true
    else if b.toNat < a.toNat then false
    else chars_lt as bs

def string_lt (a b : String) : Bool := chars_lt a.data b.data

/-- Stable insertion of a string into a sorted list (ascending). -/
def sorted_insert (x : String) : List String → List String
  | [] => [x]
  | y :: ys => if string_lt y x then y :: sorted_insert x ys else x :: y :: ys

/-- Python `sorted` on strings, as insertion sort. -/
def sort_strings : List String → List String
  | [] => []
  | x :: xs => sorted_insert x (sort_strings xs)

/-- `PBFTConsensus.__init__` (pbft.py lines 81-114): empty logs, zero
counters, `f = (n-1) // 3`, `quorum = 2f+1`, and the primary is the
view-th element of the sorted host names. -/
def pbft_init (node_id : String) (all_nodes : List String) : PBFTState :=
  let n := all_nodes.length
  let f := (n - 1) / 3
  let sorted_nodes := sort_strings (all_nodes.map extract_host)
  { node_id := node_id
    all_nodes := all_nodes
    view := 0
    sequence := 0
    primary_id := sorted_nodes.getD (0 % sorted_nodes.length) ""
    pre_prepare_log := fun _ => none
    prepare_log := fun _ => []
    commit_log := fun _ => []
    executed := []
    last_executed := 0
    suspicious_nodes := fun _ => 0
    byzantine_threshold := 3
    f := f
    quorum_size := 2 * f + 1 }

/-- `detect_byzantine_behavior` (pbft.py lines 139-149): bump the
sender's suspicion count. -/
def detect_byzantine_behavior (s : PBFTState) (node_id : String) : PBFTState :=
  { s with suspicious_nodes := upd s.suspicious_nodes node_id (s.suspicious_nodes node_id + 1) }

/-- `is_byzantine` (pbft.py lines 151-153). -/
def is_byzantine (s : PBFTState) (node_id : String) : Bool :=
  s.byzantine_threshold ≤ s.suspicious_nodes node_id

/-- `is_primary` (pbft.py lines 116-118). -/
def is_primary (s : PBFTState) : Bool :=
  s.node_id == s.primary_id

/-- `execute_request` (pbft.py lines 383-409): skip when already
executed or when no pre-prepare is stored; otherwise add the sequence
to `executed` and raise `last_executed`. -/
def execute_request (s : PBFTState) (sequence : Nat) : PBFTState :=
  if sequence ∈ s.executed then s
  else
    match s.pre_prepare_log sequence with
    | none => s
    | some _ =>
      { s with executed := sequence :: s.executed,
               last_executed := max s.last_executed sequence }

/-- `check_commit_quorum` (pbft.py lines 364-381).  The Python guard
`sequence not in self.commit_log` is subsumed by the length test: an
untouched sequence holds the empty list and `quorum_size = 2f+1 ≥ 1`. -/
def check_commit_quorum (s : PBFTState) (sequence : Nat) : PBFTState :=
  if sequence ∈ s.executed then s
  else if s.quorum_size ≤ (s.commit_log sequence).length then execute_request s sequence
  else s

/-- `check_prepare_quorum` (pbft.py lines 302-333): on 2f+1 prepares,
emit a signed commit, append it to the own commit log and re-check the
commit quorum.  Python reads `self.pre_prepare_log[sequence]`
unconditionally; at both call sites the key is present, and on the
unreachable miss the state is returned unchanged (the KeyError would
abort before any mutation). -/
def check_prepare_quorum (s : PBFTState) (sequence : Nat) : PBFTState :=
  if s.quorum_size ≤ (s.prepare_log sequence).length then
    match s.pre_prepare_log sequence with
    | none => s
    | some pre_prepare =>
      let commit0 : PBFTMessage :=
        { msg_type := "commit", view := s.view, sequence := sequence,
          digest := pre_prepare.digest, node_id := s.node_id }
      let commit : PBFTMessage := { commit0 with signature := some (sign_message commit0) }
      check_commit_quorum
        { s with commit_log := upd s.commit_log sequence (s.commit_log sequence ++ [commit]) }
        sequence
  else s

/-- `handle_prepare` (pbft.py lines 261-300): drop invalid signatures
(with suspicion), Byzantine senders, missing pre-prepares, mismatched
digests (with suspicion) and duplicate senders; otherwise append and
check the prepare quorum. -/
def handle_prepare (s : PBFTState) (m : PBFTMessage) : PBFTState :=
  if verify_signature m = false then detect_byzantine_behavior s m.node_id
  else if is_byzantine s m.node_id then s
  else
    match s.pre_prepare_log m.sequence with
    | none => s
    | some pre_prepare =>
      if m.digest ≠ pre_prepare.digest then detect_byzantine_behavior s m.node_id
      else if (s.prepare_log m.sequence).any (fun p => p.node_id == m.node_id) then s
      else
        check_prepare_quorum
          { s with prepare_log := upd s.prepare_log m.sequence (s.prepare_log m.sequence ++ [m]) }
          m.sequence

/-- `handle_commit` (pbft.py lines 335-362): drop invalid signatures
(with suspicion), Byzantine senders and duplicate senders; otherwise
append and check the commit quorum.  Note: unlike `handle_prepare`, no
pre-prepare lookup and no digest comparison happens here. -/
def handle_commit (s : PBFTState) (m : PBFTMessage) : PBFTState :=
  if verify_signature m = false then detect_byzantine_behavior s m.node_id
  else if is_byzantine s m.node_id then s
  else if (s.commit_log m.sequence).any (fun c => c.node_id == m.node_id) then s
  else
    check_commit_quorum
      { s with commit_log := upd s.commit_log m.sequence (s.commit_log m.sequence ++ [m]) }
      m.sequence

/-- `handle_pre_prepare` (pbft.py lines 210-259): reject non-primary
senders, invalid signatures and conflicting pre-prepares (same
sequence, different digest) with suspicion; otherwise store the
pre-prepare, emit and store the own signed prepare, and check the
prepare quorum. -/
def handle_pre_prepare (s : PBFTState) (m : PBFTMessage) : PBFTState :=
  if m.node_id ≠ s.primary_id then detect_byzantine_behavior s m.node_id
  else if verify_signature m = false then detect_byzantine_behavior s m.node_id
  else if (match s.pre_prepare_log m.sequence with
           | some existing => existing.digest != m.digest
           | none => false) then detect_byzantine_behavior s m.node_id
  else
    let s1 : PBFTState :=
      { s with pre_prepare_log := upd s.pre_prepare_log m.sequence (some m) }
    let prepare0 : PBFTMessage :=
      { msg_type := "prepare", view := s1.view, sequence := m.sequence,
        digest := m.digest, node_id := s1.node_id }
    let prepare : PBFTMessage := { prepare0 with signature := some (sign_message prepare0) }
    let s2 : PBFTState :=
      { s1 with prepare_log := upd s1.prepare_log m.sequence (s1.prepare_log m.sequence ++ [prepare]) }
    check_prepare_quorum s2 m.sequence

/-- `start_consensus` (pbft.py lines 172-208): at a replica, return an
error without touching the state; at the primary, advance the
sequence, store the signed pre-prepare and feed it to the own
pre-prepare handler (broadcast is fire-and-forget). -/
def start_consensus (s : PBFTState) (request : String) : PBFTState :=
  if is_primary s = false then s
  else
    let s1 : PBFTState := { s with sequence := s.sequence + 1 }
    let digest := compute_digest request
    let pp0 : PBFTMessage :=
      { msg_type := "pre-prepare", view := s1.view, sequence := s1.sequence,
        digest := digest, node_id := s1.node_id, request := some request }
    let pp : PBFTMessage := { pp0 with signature := some (sign_message pp0) }
    handle_pre_prepare
      { s1 with pre_prepare_log := upd s1.pre_prepare_log s1.sequence (some pp) }
      pp

/-- One state transition of a PBFT node: a protocol message dispatched
to its handler, or a client request at the engine. -/
inductive PBFTStep : PBFTState → PBFTState → Prop
  | pre_prepare (s : PBFTState) (m : PBFTMessage) : PBFTStep s (handle_pre_prepare s m)
  | prepare (s : PBFTState) (m : PBFTMessage) : PBFTStep s (handle_prepare s m)
  | commit (s : PBFTState) (m : PBFTMessage) : PBFTStep s (handle_commit s m)
  | client (s : PBFTState) (request : String) : PBFTStep s (start_consensus s request)

/-- PBFT engine states reachable from some engine initialization. -/
inductive PBFTReachable : PBFTState → Prop
  | init (node_id : String) (all_nodes : List String) :
      PBFTReachable (pbft_init node_id all_nodes)
  | step {s s' : PBFTState} : PBFTReachable s → PBFTStep s s' → PBFTReachable s'

/-- Per-transition facts shared by the PBFT safety arguments: the
Byzantine threshold is fixed, suspicion counts only grow, the executed
set only grows and stays duplicate-free, stored pre-prepares are never
dropped, and every executed sequence keeps a stored pre-prepare. -/
structure StepOk (s s' : PBFTState) : Prop where
  threshold_eq : s'.byzantine_threshold = s.byzantine_threshold
  suspicion_mono : ∀ x, s.suspicious_nodes x ≤ s'.suspicious_nodes x
  executed_mono : ∀ q, q ∈ s.executed → q ∈ s'.executed
  pre_prepare_mono : ∀ q, (s.pre_prepare_log q).isSome = true →
    (s'.pre_prepare_log q).isSome = true
  executed_pp : (∀ q ∈ s.executed, (s.pre_prepare_log q).isSome = true) →
    ∀ q ∈ s'.executed, (s'.pre_prepare_log q).isSome = true
  executed_nodup : s.executed.Nodup → s'.executed.Nodup

theorem stepok_refl (s : PBFTState) : StepOk s s :=
  ⟨rfl, fun _ => Nat.le_refl _, fun _ h => h, fun _ h => h, fun h => h, fun h => h⟩

theorem stepok_trans {s t u : PBFTState} (h1 : StepOk s t) (h2 : StepOk t u) : StepOk s u :=
  ⟨h2.threshold_eq.trans h1.threshold_eq,
   fun x => (h1.suspicion_mono x).trans (h2.suspicion_mono x),
   fun q hq => h2.executed_mono q (h1.executed_mono q hq),
   fun q hq => h2.pre_prepare_mono q (h1.pre_prepare_mono q hq),
   fun hI => h2.executed_pp (h1.executed_pp hI),
   fun hN => h2.executed_nodup (h1.executed_nodup hN)⟩

theorem stepok_execute_request (s : PBFTState) (q0 : Nat) :
    StepOk s (execute_request s q0) := by
  unfold execute_request
  by_cases hmem : q0 ∈ s.executed
  · rw [if_pos hmem]
    exact stepok_refl s
  · rw [if_neg hmem]
    cases hpp : s.pre_prepare_log q0 with
    | none => exact stepok_refl s
    | some pp =>
      refine ⟨rfl, fun _ => Nat.le_refl _, ?_, fun q h => h, ?_, ?_⟩
      · intro q hq
        exact List.mem_cons_of_mem _ hq
      · intro hI q hq
        rcases List.mem_cons.mp hq with h | h
        · subst h
          show (s.pre_prepare_log q).isSome = true
          rw [hpp]
          rfl
        · exact hI q h
      · intro hN
        exact List.nodup_cons.mpr ⟨hmem, hN⟩

theorem stepok_check_commit_quorum (s : PBFTState) (q0 : Nat) :
    StepOk s (check_commit_quorum s q0) := by
  unfold check_commit_quorum
  by_cases h1 : q0 ∈ s.executed
  · rw [if_pos h1]
    exact stepok_refl s
  · rw [if_neg h1]
    by_cases h2 : s.quorum_size ≤ (s.commit_log q0).length
    · rw [if_pos h2]
      exact stepok_execute_request s q0
    · rw [if_neg h2]
      exact stepok_refl s

theorem stepok_set_commit_log (s : PBFTState) (cl : Nat → List PBFTMessage) :
    StepOk s { s with commit_log := cl } :=
  ⟨rfl, fun _ => Nat.le_refl _, fun _ h => h, fun _ h => h, fun h => h, fun h => h⟩

theorem stepok_set_prepare_log (s : PBFTState) (pl : Nat → List PBFTMessage) :
    StepOk s { s with prepare_log := pl } :=
  ⟨rfl, fun _ => Nat.le_refl _, fun _ h => h, fun _ h => h, fun h => h, fun h => h⟩

theorem stepok_set_pre_prepare (s : PBFTState) (k : Nat) (m : PBFTMessage) :
    StepOk s { s with pre_prepare_log := upd s.pre_prepare_log k (some m) } := by
  refine ⟨rfl, fun _ => Nat.le_refl _, fun _ h => h, ?_, ?_, fun h => h⟩
  · intro q hq
    show (upd s.pre_prepare_log k (some m) q).isSome = true
    by_cases hk : q = k
    · subst hk
      rw [upd_same]
      rfl
    · rw [upd_ne _ _ _ hk]
      exact hq
  · intro hI q hq
    show (upd s.pre_prepare_log k (some m) q).isSome = true
    by_cases hk : q = k
    · subst hk
      rw [upd_same]
      rfl
    · rw [upd_ne _ _ _ hk]
      exact hI q hq

theorem stepok_detect (s : PBFTState) (nid : String) :
    StepOk s (detect_byzantine_behavior s nid) := by
  refine ⟨rfl, ?_, fun _ h => h, fun _ h => h, fun h => h, fun h => h⟩
  intro x
  by_cases hx : x = nid
  · subst hx
    show s.suspicious_nodes x ≤ upd s.suspicious_nodes x (s.suspicious_nodes x + 1) x
    rw [upd_same]
    omega
  · show s.suspicious_nodes x ≤ upd s.suspicious_nodes nid (s.suspicious_nodes nid + 1) x
    rw [upd_ne _ _ _ hx]

theorem stepok_check_prepare_quorum (s : PBFTState) (q0 : Nat) :
    StepOk s (check_prepare_quorum s q0) := by
  unfold check_prepare_quorum
  by_cases h1 : s.quorum_size ≤ (s.prepare_log q0).length
  · rw [if_pos h1]
    cases hpp : s.pre_prepare_log q0 with
    | none => exact stepok_refl s
    | some pre_prepare =>
      dsimp only
      exact stepok_trans (stepok_set_commit_log s _) (stepok_check_commit_quorum _ q0)
  · rw [if_neg h1]
    exact stepok_refl s

theorem stepok_handle_commit (s : PBFTState) (m : PBFTMessage) :
    StepOk s (handle_commit s m) := by
  unfold handle_commit
  by_cases hv : verify_signature m = false
  · rw [if_pos hv]
    exact stepok_detect s m.node_id
  · rw [if_neg hv]
    by_cases hb : is_byzantine s m.node_id = true
    · rw [if_pos hb]
      exact stepok_refl s
    · rw [if_neg hb]
      by_cases hd : (s.commit_log m.sequence).any (fun c => c.node_id == m.node_id) = true
      · rw [if_pos hd]
        exact stepok_refl s
      · rw [if_neg hd]
        exact stepok_trans (stepok_set_commit_log s _) (stepok_check_commit_quorum _ m.sequence)

theorem stepok_handle_prepare (s : PBFTState) (m : PBFTMessage) :
    StepOk s (handle_prepare s m) := by
  unfold handle_prepare
  by_cases hv : verify_signature m = false
  · rw [if_pos hv]
    exact stepok_detect s m.node_id
  · rw [if_neg hv]
    by_cases hb : is_byzantine s m.node_id = true
    · rw [if_pos hb]
      exact stepok_refl s
    · rw [if_neg hb]
      cases hpp : s.pre_prepare_log m.sequence with
      | none => exact stepok_refl s
      | some pre_prepare =>
        dsimp only
        by_cases hd : m.digest ≠ pre_prepare.digest
        · rw [if_pos hd]
          exact stepok_detect s m.node_id
        · rw [if_neg hd]
          by_cases hdup : (s.prepare_log m.sequence).any (fun p => p.node_id == m.node_id) = true
          · rw [if_pos hdup]
            exact stepok_refl s
          · rw [if_neg hdup]
            exact stepok_trans (stepok_set_prepare_log s _)
              (stepok_check_prepare_quorum _ m.sequence)

theorem stepok_handle_pre_prepare (s : PBFTState) (m : PBFTMessage) :
    StepOk s (handle_pre_prepare s m) := by
  unfold handle_pre_prepare
  by_cases h1 : m.node_id ≠ s.primary_id
  · rw [if_pos h1]
    exact stepok_detect s m.node_id
  · rw [if_neg h1]
    by_cases hv : verify_signature m = false
    · rw [if_pos hv]
      exact stepok_detect s m.node_id
    · rw [if_neg hv]
      by_cases hc : (match s.pre_prepare_log m.sequence with
                     | some existing => existing.digest != m.digest
                     | none => false) = true
      · rw [if_pos hc]
        exact stepok_detect s m.node_id
      · rw [if_neg hc]
        dsimp only
        exact stepok_trans (stepok_set_pre_prepare s m.sequence m)
          (stepok_trans (stepok_set_prepare_log _ _) (stepok_check_prepare_quorum _ m.sequence))

theorem stepok_start_consensus (s : PBFTState) (request : String) :
    StepOk s (start_consensus s request) := by
  unfold start_consensus
  by_cases hp : is_primary s = false
  · rw [if_pos hp]
    exact stepok_refl s
  · rw [if_neg hp]
    dsimp only
    refine stepok_trans (⟨rfl, fun _ => Nat.le_refl _, fun _ h => h, fun _ h => h,
      fun h => h, fun h => h⟩ : StepOk s { s with sequence := s.sequence + 1 }) ?_
    exact stepok_trans (stepok_set_pre_prepare _ _ _) (stepok_handle_pre_prepare _ _)

theorem stepok_of_step {s s' : PBFTState} (h : PBFTStep s s') : StepOk s s' := by
  cases h with
  | pre_prepare m => exact stepok_handle_pre_prepare _ m
  | prepare m => exact stepok_handle_prepare _ m
  | commit m => exact stepok_handle_commit _ m
  | client request => exact stepok_start_consensus _ request

theorem pbft_init_executed (node_id : String) (all_nodes : List String) :
    (pbft_init node_id all_nodes).executed = [] := rfl

theorem pbft_reachable_inv (s : PBFTState) (h : PBFTReachable s) :
    (∀ q ∈ s.executed, (s.pre_prepare_log q).isSome = true) ∧ s.executed.Nodup := by
  induction h with
  | init node_id all_nodes =>
    constructor
    · intro q hq
      rw [pbft_init_executed] at hq
      cases hq
    · rw [pbft_init_executed]
      exact List.nodup_nil
  | step _ hstep ih =>
    have hok := stepok_of_step hstep
    exact ⟨hok.executed_pp ih.1, hok.executed_nodup ih.2⟩

/-! ### Concrete four-node traces used by the PBFT claims
(`n = 4`, so `f = 1` and the quorum is 3; the sorted hosts make
"nodeA" the view-0 primary and the embedded node "nodeB" a replica). -/

def pbftNodes : List String :=
  ["http://nodeA:8000", "http://nodeB:8000", "http://nodeC:8000", "http://nodeD:8000"]

def pbftS0 : PBFTState := pbft_init "nodeB" pbftNodes

/-- A correctly signed commit message, as any sender (honest or not)
can produce under the placeholder HMAC. -/
def pbft_commit_msg (nid : String) (seq : Nat) (dg : String) : PBFTMessage :=
  let c0 : PBFTMessage :=
    { msg_type := "commit", view := 0, sequence := seq, digest := dg, node_id := nid }
  { c0 with signature := some (sign_message c0) }

/-- A correctly signed prepare message. -/
def pbft_prepare_msg (nid : String) (seq : Nat) (dg : String) : PBFTMessage :=
  let p0 : PBFTMessage :=
    { msg_type := "prepare", view := 0, sequence := seq, digest := dg, node_id := nid }
  { p0 with signature := some (sign_message p0) }

/-- Three distinct-sender commits for sequence 5, for which no
pre-prepare was ever received. -/
def pbftNoPrePrepareQuorumState : PBFTState :=
  handle_commit (handle_commit (handle_commit pbftS0 (pbft_commit_msg "nodeC" 5 "dg"))
    (pbft_commit_msg "nodeD" 5 "dg")) (pbft_commit_msg "nodeA" 5 "dg")

/-- Claim C10: on every reachable engine state the executed set is a
subset of the pre-prepare log's keys and duplicate-free, execution only
grows it across steps — and yet commit messages for a sequence with no
stored pre-prepare are accepted into the commit log and reach quorum
size (they are stopped only inside `execute_request`). -/
theorem pbft_executed_only_with_pre_prepare :
    (∀ s, PBFTReachable s → ∀ q ∈ s.executed, (s.pre_prepare_log q).isSome = true) ∧
    (∀ s, PBFTReachable s → s.executed.Nodup) ∧
    (∀ s s' : PBFTState, PBFTStep s s' → ∀ q, q ∈ s.executed → q ∈ s'.executed) ∧
    (PBFTReachable pbftNoPrePrepareQuorumState ∧
      pbftNoPrePrepareQuorumState.quorum_size ≤
        (pbftNoPrePrepareQuorumState.commit_log 5).length ∧
      pbftNoPrePrepareQuorumState.pre_prepare_log 5 = none ∧
      5 ∉ pbftNoPrePrepareQuorumState.executed) := by
  refine ⟨fun s hs => (pbft_reachable_inv s hs).1, fun s hs => (pbft_reachable_inv s hs).2,
    fun s s' hstep => (stepok_of_step hstep).executed_mono, ?_, by decide, by decide, by decide⟩
  exact PBFTReachable.step (PBFTReachable.step (PBFTReachable.step
    (PBFTReachable.init "nodeB" pbftNodes)
    (PBFTStep.commit pbftS0 (pbft_commit_msg "nodeC" 5 "dg")))
    (PBFTStep.commit _ (pbft_commit_msg "nodeD" 5 "dg")))
    (PBFTStep.commit _ (pbft_commit_msg "nodeA" 5 "dg"))

theorem is_byzantine_step {s s' : PBFTState} (h : PBFTStep s s') (x : String)
    (hb : is_byzantine s x = true) : is_byzantine s' x = true := by
  have hok := stepok_of_step h
  unfold is_byzantine at hb ⊢
  have hb' : s.byzantine_threshold ≤ s.suspicious_nodes x := of_decide_eq_true hb
  apply decide_eq_true
  rw [hok.threshold_eq]
  exact hb'.trans (hok.suspicion_mono x)

theorem is_byzantine_star {s s' : PBFTState}
    (hsteps : Relation.ReflTransGen PBFTStep s s') (x : String)
    (hb : is_byzantine s x = true) : is_byzantine s' x = true := by
  induction hsteps with
  | refl => exact hb
  | tail _ h2 ih => exact is_byzantine_step h2 x ih

theorem handle_prepare_byzantine_drop (s : PBFTState) (m : PBFTMessage)
    (hb : is_byzantine s m.node_id = true) :
    (handle_prepare s m).prepare_log = s.prepare_log ∧
    (handle_prepare s m).commit_log = s.commit_log ∧
    (handle_prepare s m).executed = s.executed := by
  unfold handle_prepare
  by_cases hv : verify_signature m = false
  · rw [if_pos hv]
    exact ⟨rfl, rfl, rfl⟩
  · rw [if_neg hv, if_pos hb]
    exact ⟨rfl, rfl, rfl⟩

theorem handle_commit_byzantine_drop (s : PBFTState) (m : PBFTMessage)
    (hb : is_byzantine s m.node_id = true) :
    (handle_commit s m).prepare_log = s.prepare_log ∧
    (handle_commit s m).commit_log = s.commit_log ∧
    (handle_commit s m).executed = s.executed := by
  unfold handle_commit
  by_cases hv : verify_signature m = false
  · rw [if_pos hv]
    exact ⟨rfl, rfl, rfl⟩
  · rw [if_neg hv, if_pos hb]
    exact ⟨rfl, rfl, rfl⟩

/-- Claim C9: once a node's suspicion count reaches the Byzantine
threshold it stays there through every later state, and handling any
later prepare or commit from that node leaves the prepare log, commit
log and executed set untouched — such messages never enter any
quorum. -/
theorem byzantine_isolation (s s' : PBFTState) (x : String) (m : PBFTMessage)
    (hbyz : is_byzantine s x = true)
    (hsteps : Relation.ReflTransGen PBFTStep s s')
    (hx : m.node_id = x) :
    is_byzantine s' x = true ∧
    (handle_prepare s' m).prepare_log = s'.prepare_log ∧
    (handle_prepare s' m).commit_log = s'.commit_log ∧
    (handle_prepare s' m).executed = s'.executed ∧
    (handle_commit s' m).prepare_log = s'.prepare_log ∧
    (handle_commit s' m).commit_log = s'.commit_log ∧
    (handle_commit s' m).executed = s'.executed := by
  have hb' := is_byzantine_star hsteps x hbyz
  have hbm : is_byzantine s' m.node_id = true := by
    rw [hx]
    exact hb'
  obtain ⟨p1, p2, p3⟩ := handle_prepare_byzantine_drop s' m hbm
  obtain ⟨c1, c2, c3⟩ := handle_commit_byzantine_drop s' m hbm
  exact ⟨hb', p1, p2, p3, c1, c2, c3⟩

/-- Three prepares with an invalid signature from "evil" drive its
suspicion count to the threshold. -/
def pbft_bad_prepare : PBFTMessage :=
  { msg_type := "prepare", view := 0, sequence := 1, digest := "d",
    node_id := "evil", signature := some "bogus" }

def pbftByzState : PBFTState :=
  handle_prepare (handle_prepare (handle_prepare pbftS0 pbft_bad_prepare)
    pbft_bad_prepare) pbft_bad_prepare

/-- Witness for C9: after "evil" is marked Byzantine, even its
correctly signed prepare is dropped. -/
theorem byzantine_isolation_witness :
    is_byzantine pbftByzState "evil" = true ∧
    (handle_prepare pbftByzState (pbft_prepare_msg "evil" 1 "d")).prepare_log =
      pbftByzState.prepare_log ∧
    (handle_prepare pbftByzState (pbft_prepare_msg "evil" 1 "d")).commit_log =
      pbftByzState.commit_log ∧
    (handle_prepare pbftByzState (pbft_prepare_msg "evil" 1 "d")).executed =
      pbftByzState.executed ∧
    (handle_commit pbftByzState (pbft_prepare_msg "evil" 1 "d")).prepare_log =
      pbftByzState.prepare_log ∧
    (handle_commit pbftByzState (pbft_prepare_msg "evil" 1 "d")).commit_log =
      pbftByzState.commit_log ∧
    (handle_commit pbftByzState (pbft_prepare_msg "evil" 1 "d")).executed =
      pbftByzState.executed :=
  byzantine_isolation pbftByzState pbftByzState "evil" (pbft_prepare_msg "evil" 1 "d")
    (by decide) Relation.ReflTransGen.refl rfl

/-- The pre-prepare the primary "nodeA" issued for sequence 1; its
digest is the digest of request "req1". -/
def pbftPP0 : PBFTMessage :=
  { msg_type := "pre-prepare", view := 0, sequence := 1,
    digest := compute_digest "req1", node_id := "nodeA", request := some "req1" }

def pbftPP : PBFTMessage := { pbftPP0 with signature := some (sign_message pbftPP0) }

/-- A run in which sequence 1 executes although every commit in its log
carries the digest "evil", none matching the stored pre-prepare. -/
def pbftDigestBugState : PBFTState :=
  handle_commit (handle_commit (handle_commit (handle_pre_prepare pbftS0 pbftPP)
    (pbft_commit_msg "nodeC" 1 "evil")) (pbft_commit_msg "nodeD" 1 "evil"))
    (pbft_commit_msg "nodeA" 1 "evil")

/-- Claim C1 fails on the code: `handle_commit` never compares a
commit's digest against the stored pre-prepare (unlike
`handle_prepare`), so with `n = 4` (quorum 3) three correctly signed
commits carrying digest "evil" execute sequence 1 even though the
stored pre-prepare's digest is `compute_digest "req1"` — zero commits
with a matching digest. -/
theorem commit_digest_unchecked_execution :
    PBFTReachable pbftDigestBugState ∧
    1 ∈ pbftDigestBugState.executed ∧
    (pbftDigestBugState.pre_prepare_log 1).map PBFTMessage.digest =
      some (compute_digest "req1") ∧
    (pbftDigestBugState.commit_log 1).all
      (fun c => c.digest != compute_digest "req1") = true ∧
    pbftDigestBugState.quorum_size = 3 ∧
    pbftDigestBugState.f = 1 := by
  refine ⟨?_, by decide, by decide, by decide, by decide, by decide⟩
  exact PBFTReachable.step (PBFTReachable.step (PBFTReachable.step (PBFTReachable.step
    (PBFTReachable.init "nodeB" pbftNodes) (PBFTStep.pre_prepare pbftS0 pbftPP))
    (PBFTStep.commit _ (pbft_commit_msg "nodeC" 1 "evil")))
    (PBFTStep.commit _ (pbft_commit_msg "nodeD" 1 "evil")))
    (PBFTStep.commit _ (pbft_commit_msg "nodeA" 1 "evil"))

end DistSync
